import Mathlib

/-!
Verification of the RWA tokenization backend (Gin + GORM + SQLite).

Shallow embedding of the asset data model (`models/asset.go`), the GORM
store semantics used by the handlers (primary-key create, lookup with the
`AfterFind` hook, save by primary key), and the request handlers in
`handlers/asset_handler.go` (`MintAsset`, `GetAllAssets`, `GetAssetByID`,
`UpdateContractAddress`, `UpdateAssetStaking`).

Modelling conventions:
* Go `int64` fields are modelled as `Int` (no handler computation that the
  claims exercise reaches the 64-bit boundary; the parser model below does
  enforce the 64-bit range exactly as `strconv.ParseInt` does).
* Go `float64` fields are modelled exactly as `ℚ`.
* Go slices distinguish `nil` from an empty slice, and `encoding/json`
  marshals a `nil` slice as JSON `null` but an empty non-nil slice as `[]`;
  `GoSlice` keeps that distinction (`none` = nil).
* `time.Time` values are modelled by their Unix-seconds value (`Nat`).
* Wall time is passed explicitly to each mutating handler.
-/

namespace RwaBackend

/-- A Go slice: `none` is the `nil` slice, `some l` a non-nil slice with
elements `l`.  `encoding/json` marshals `none` as `null`. -/
abbrev GoSlice (α : Type) := Option (List α)

/-- Go `append` on a possibly-nil slice always yields a non-nil slice. -/
def goAppend {α : Type} (s : GoSlice α) (x : α) : GoSlice α :=
  some (s.getD [] ++ [x])

/-- Go `len` of a possibly-nil slice (`len(nil) = 0`). -/
def goLen {α : Type} (s : GoSlice α) : Nat :=
  (s.getD []).length

/-- The JSON value a Go slice field marshals to: `null` for a nil slice,
a JSON array otherwise. -/
inductive GoJson (α : Type) where
  | null : GoJson α
  | arr (l : List α) : GoJson α
deriving DecidableEq, Repr

/-- `encoding/json` marshalling of a slice-valued field. -/
def encodeSlice {α : Type} : GoSlice α → GoJson α
  | none => GoJson.null
  | some l => GoJson.arr l

/-- Two-digit zero padding, as in Go time formatting of months and days. -/
def pad2 (n : Nat) : String :=
  if n < 10 then "0" ++ toString n else toString n

/-- Civil date (year, month, day) from a count of days since 1970-01-01,
the standard proleptic-Gregorian conversion used by Go's `time` package
for non-negative Unix times. -/
def civilFromDays (days : Nat) : Nat × Nat × Nat :=
  let z := days + 719468
  let era := z / 146097
  let doe := z % 146097
  let yoe := (doe - doe / 1460 + doe / 36524 - doe / 146096) / 365
  let y := yoe + era * 400
  let doy := doe - (365 * yoe + yoe / 4 - yoe / 100)
  let mp := (5 * doy + 2) / 153
  let d := doy - (153 * mp + 2) / 5 + 1
  let m := if mp < 10 then mp + 3 else mp - 9
  (if m ≤ 2 then y + 1 else y, m, d)

/-- Go `time.Time.Format("2006-01-02")` on a Unix-seconds instant. -/
def formatYMD (t : Nat) : String :=
  let c := civilFromDays (t / 86400)
  toString c.1 ++ "-" ++ pad2 c.2.1 ++ "-" ++ pad2 c.2.2

/-- One decimal digit. -/
def digitVal (c : Char) : Option Nat :=
  if c.isDigit then some (c.toNat - 48) else none

/-- A non-empty run of decimal digits, as a natural number. -/
def parseDigits (cs : List Char) : Option Nat :=
  match cs with
  | [] => none
  | _ => cs.foldl (fun acc c => acc.bind fun a => (digitVal c).map fun d => a * 10 + d)
      (some 0)

def int64Max : Int := 2 ^ 63 - 1

def int64Min : Int := -(2 ^ 63)

/-- Model of Go `strconv.ParseInt(s, 10, 64)`: an optional sign followed by
decimal digits, rejected when the value leaves the `int64` range (Go then
returns a range error, which the handlers treat the same as a syntax
error). -/
def goParseInt64 (s : String) : Option Int :=
  match s.toList with
  | '+' :: rest =>
      (parseDigits rest).bind fun n =>
        if (n : Int) ≤ int64Max then some (n : Int) else none
  | '-' :: rest =>
      (parseDigits rest).bind fun n =>
        if int64Min ≤ -(n : Int) then some (-(n : Int)) else none
  | cs =>
      (parseDigits cs).bind fun n =>
        if (n : Int) ≤ int64Max then some (n : Int) else none

/-- Model of Go `strconv.ParseFloat(s, 64)` on plain decimal literals
(optional sign, digits, optional fractional part), with the `float64`
value represented exactly as a rational.  The exponent, hexadecimal and
inf/NaN forms of Go's syntax are not modelled; every numeric payload the
handlers are analysed on is a plain decimal literal. -/
def goParseFloat (s : String) : Option ℚ :=
  let body : List Char → Option ℚ := fun cs =>
    match cs.splitOn '.' with
    | [as] => (parseDigits as).map fun n => (n : ℚ)
    | [as, bs] =>
        if as.isEmpty && bs.isEmpty then none
        else
          (if as.isEmpty then some 0 else parseDigits as).bind fun i =>
            (if bs.isEmpty then some 0 else parseDigits bs).map fun f =>
              (i : ℚ) + (f : ℚ) / ((10 : ℚ) ^ bs.length)
    | _ => none
  match s.toList with
  | '+' :: rest => body rest
  | '-' :: rest => (body rest).map fun q => -q
  | cs => body cs

/-- `models.Document`: one supporting-document entry. -/
structure Document where
  name : String
  date : String
  url : String
deriving DecidableEq, Repr, Inhabited

/-- `models.Staker`: one (mock) staker entry. -/
structure Staker where
  address : String
  amount : ℚ
  percentage : ℚ
deriving DecidableEq, Repr, Inhabited

/-- `models.Asset`: the persisted asset record.  `documents` and
`topStakers` carry the gorm tag `-` in the source: they are computed by the
`AfterFind` hook and never persisted. -/
structure Asset where
  id : String
  name : String
  symbol : String
  type : String
  institution : String
  institutionAddress : String
  description : String
  totalSupply : Int
  stakedAmount : Int
  priceUsd : ℚ
  annualYield : ℚ
  createdAt : Nat
  updatedAt : Nat
  blockchain : String
  contractAddress : String
  txHash : String
  documentsURI : String
  imageURI : String
  documents : GoSlice Document := none
  topStakers : GoSlice Staker := none
deriving DecidableEq, Repr, Inhabited

/-- `models.AssetResponse`: the derived response view (embeds the asset). -/
structure AssetResponse where
  asset : Asset
  availableSupply : Int
  marketCap : ℚ
  minInvestment : ℚ
  maxInvestment : ℚ
  stakingProgress : ℚ
  isContractActive : Bool
  totalValue : ℚ
  stakedValue : ℚ
  availableValue : ℚ
deriving DecidableEq, Repr, Inhabited

/-- `(*Asset).ToAssetResponse` from `models/asset.go`. -/
def Asset.ToAssetResponse (a : Asset) : AssetResponse :=
  let availableSupply0 := a.totalSupply - a.stakedAmount
  let availableSupply := if availableSupply0 < 0 then 0 else availableSupply0
  let marketCap := (a.totalSupply : ℚ) * a.priceUsd
  let totalValue := marketCap
  let stakedValue := (a.stakedAmount : ℚ) * a.priceUsd
  let availableValue := (availableSupply : ℚ) * a.priceUsd
  let stakingProgress :=
    if 0 < a.totalSupply then
      ((a.stakedAmount : ℚ) / (a.totalSupply : ℚ)) * 100
    else 0
  let isContractActive := a.contractAddress ≠ "" && a.contractAddress ≠ "pending"
  let minInvestment := a.priceUsd
  let maxInvestment0 := availableValue
  let maxInvestment := if maxInvestment0 < minInvestment then minInvestment else maxInvestment0
  { asset := a
    availableSupply := availableSupply
    marketCap := marketCap
    minInvestment := minInvestment
    maxInvestment := maxInvestment
    stakingProgress := stakingProgress
    isContractActive := isContractActive
    totalValue := totalValue
    stakedValue := stakedValue
    availableValue := availableValue }

/-- `(*Asset).AfterFind` from `models/asset.go`: the gorm hook run on every
record loaded by `First`/`Find`; fills the computed `documents` and
`topStakers` presentation fields. -/
def Asset.AfterFind (a : Asset) : Asset :=
  let documents : GoSlice Document :=
    if a.documentsURI ≠ "" then
      some [{ name := "Supporting Documents"
              date := formatYMD a.createdAt
              url := a.documentsURI }]
    else some []
  let topStakers : GoSlice Staker :=
    if 0 < a.stakedAmount then
      let totalStaked := (a.stakedAmount : ℚ)
      some [{ address := "0x1234...5678", amount := totalStaked * 0.4, percentage := 40 },
            { address := "0xabcd...efgh", amount := totalStaked * 0.35, percentage := 35 },
            { address := "0x9876...5432", amount := totalStaked * 0.25, percentage := 25 }]
    else some []
  { a with documents := documents, topStakers := topStakers }

/-- `models.MintRequest`.  Absent JSON string fields unmarshal to `""`. -/
structure MintRequest where
  name : String
  symbol : String
  institutionName : String
  institutionAddress : String
  description : String
  totalSupply : String
  expectedYield : String
  pricePerRWA : String
  contractAddress : String
  txHash : String
  documentsURI : String
  imageURI : String
deriving DecidableEq, Repr, Inhabited

/-- Gin `BindJSON` validation of `MintRequest`: the fields tagged
`binding:"required"` must not hold their zero value `""`. -/
def MintRequest.bindOk (r : MintRequest) : Bool :=
  r.name ≠ "" && r.symbol ≠ "" && r.institutionName ≠ "" &&
  r.totalSupply ≠ "" && r.expectedYield ≠ ""

/-- `models.UpdateContractRequest`. -/
structure UpdateContractRequest where
  contractAddress : String
  txHash : String
deriving DecidableEq, Repr, Inhabited

/-- Modelled from the spec: the shared response envelope produced by the
`utils` package (`utils/response.go` is not among the provided sources).
Per §6/§7 of the design, every response is
`{success: bool, message: string, data: payload-or-null}` together with the
HTTP status chosen at the handler call site; `SuccessResponse` sets
`success = true` with a payload, `ErrorResponse` sets `success = false`
with no payload. -/
structure Envelope (α : Type) where
  success : Bool
  status : Nat
  message : String
  data : Option α
deriving DecidableEq, Repr, Inhabited

/-- `utils.SuccessResponse` (modelled from the spec, see `Envelope`). -/
def successResponse {α : Type} (status : Nat) (message : String) (d : α) : Envelope α :=
  { success := true, status := status, message := message, data := some d }

/-- `utils.ErrorResponse` (modelled from the spec, see `Envelope`). -/
def errorResponse {α : Type} (status : Nat) (message : String) : Envelope α :=
  { success := false, status := status, message := message, data := none }

/-- The persisted table: one row per asset, keyed by `id` (gorm
`primaryKey`). -/
abbrev Store := List Asset

/-- gorm never writes the `gorm:"-"` computed fields. -/
def stripComputed (a : Asset) : Asset :=
  { a with documents := none, topStakers := none }

/-- The raw stored row with the given primary key, without hooks. -/
def dbFindRaw (s : Store) (id : String) : Option Asset :=
  s.find? fun b => b.id == id

/-- gorm `First(&asset, "id = ?", id)`: loads the row and runs the
`AfterFind` hook on it. -/
def dbFirst (s : Store) (id : String) : Option Asset :=
  (dbFindRaw s id).map Asset.AfterFind

/-- gorm `Create`: inserts the row; fails (UNIQUE constraint on the
primary key) when a row with the same id already exists. -/
def dbCreate (s : Store) (a : Asset) : Option Store :=
  if s.any (fun b => b.id == a.id) then none
  else some (s ++ [stripComputed a])

/-- gorm `Save`: updates the row with the record's primary key. -/
def dbSave (s : Store) (a : Asset) : Store :=
  s.map fun b => if b.id == a.id then stripComputed a else b

/-- The identifier the mint handler synthesizes:
`fmt.Sprintf("asset_%d", time.Now().Unix())`. -/
def mintId (t : Nat) : String :=
  "asset_" ++ toString t

/-- The mint success payload: `gin.H{"id": asset.ID, "asset": assetResponse}`. -/
structure MintPayload where
  id : String
  asset : AssetResponse
deriving DecidableEq, Repr, Inhabited

/-- The `models.Asset` literal the mint handler constructs from a parsed
request: identifier from the call time, fixed type and blockchain
defaults, staked amount 0, contract address falling back to "pending". -/
def mintedAsset (req : MintRequest) (t : Nat) (totalSupply : Int)
    (expectedYield pricePerRWA : ℚ) : Asset :=
  { id := mintId t
    name := req.name
    symbol := req.symbol
    type := "Real Estate"
    institution := req.institutionName
    institutionAddress := req.institutionAddress
    description := req.description
    totalSupply := totalSupply
    stakedAmount := 0
    priceUsd := pricePerRWA
    annualYield := expectedYield
    createdAt := t
    updatedAt := t
    blockchain := "Lisk"
    contractAddress := if req.contractAddress = "" then "pending" else req.contractAddress
    txHash := req.txHash
    documentsURI := req.documentsURI
    imageURI := req.imageURI }

/-- `handlers.MintAsset` (POST /api/assets/mint).  `t` is the Unix time at
which the handler runs; gorm's `autoCreateTime`/`autoUpdateTime` stamp the
same instant. -/
def MintAsset (s : Store) (req : MintRequest) (t : Nat) : Envelope MintPayload × Store :=
  if !req.bindOk then (errorResponse 400 "Invalid request data", s)
  else
    match goParseInt64 req.totalSupply with
    | none => (errorResponse 400 "Invalid total supply", s)
    | some totalSupply =>
      match goParseFloat req.expectedYield with
      | none => (errorResponse 400 "Invalid expected yield", s)
      | some expectedYield =>
        match (if req.pricePerRWA = "" then some 1 else goParseFloat req.pricePerRWA) with
        | none => (errorResponse 400 "Invalid price per RWA", s)
        | some pricePerRWA =>
          match dbCreate s (mintedAsset req t totalSupply expectedYield pricePerRWA) with
          | none => (errorResponse 500 "Failed to save asset", s)
          | some s2 =>
              (successResponse 201 "Asset minted successfully"
                { id := (mintedAsset req t totalSupply expectedYield pricePerRWA).id
                  asset := (mintedAsset req t totalSupply expectedYield pricePerRWA).ToAssetResponse },
               s2)

/-- Insert into a list kept sorted by `createdAt` descending. -/
def insertByCreatedDesc (a : Asset) : List Asset → List Asset
  | [] => [a]
  | b :: bs =>
      if b.createdAt ≥ a.createdAt then b :: insertByCreatedDesc a bs
      else a :: b :: bs

/-- The SQLite `ORDER BY created_at DESC` result set. -/
def sortByCreatedDesc (l : List Asset) : List Asset :=
  l.foldr insertByCreatedDesc []

/-- The list payload: `gin.H{"assets": assetResponses, "total": len(assetResponses)}`. -/
structure ListPayload where
  assets : GoSlice AssetResponse
  total : Nat
deriving DecidableEq, Repr, Inhabited

/-- `handlers.GetAllAssets` (GET /api/assets).  Read-only.  The
`assetResponses` slice starts as Go `nil` and is grown by `append`, so on
an empty store it stays `nil`. -/
def GetAllAssets (s : Store) : Envelope ListPayload :=
  let assets := (sortByCreatedDesc s).map Asset.AfterFind
  let assetResponses : GoSlice AssetResponse :=
    assets.foldl (fun acc a => goAppend acc a.ToAssetResponse) none
  successResponse 200 "Assets fetched successfully"
    { assets := assetResponses, total := goLen assetResponses }

/-- `handlers.GetAssetByID` (GET /api/assets/:id).  Read-only. -/
def GetAssetByID (s : Store) (id : String) : Envelope AssetResponse :=
  match dbFirst s id with
  | none => errorResponse 404 "Asset not found"
  | some a => successResponse 200 "Asset fetched successfully" a.ToAssetResponse

/-- `handlers.UpdateContractAddress` (PATCH /api/assets/:id/contract).
Gin `BindJSON` rejects the request when the required `contractAddress`
is at its zero value `""`. -/
def UpdateContractAddress (s : Store) (id : String) (req : UpdateContractRequest)
    (t : Nat) : Envelope AssetResponse × Store :=
  if req.contractAddress = "" then (errorResponse 400 "Invalid request data", s)
  else
    match dbFirst s id with
    | none => (errorResponse 404 "Asset not found", s)
    | some a =>
        let a2 := { a with
          contractAddress := req.contractAddress
          txHash := if req.txHash ≠ "" then req.txHash else a.txHash
          updatedAt := t }
        (successResponse 200 "Contract address updated successfully" a2.ToAssetResponse,
         dbSave s a2)

/-- `handlers.UpdateAssetStaking` (PATCH /api/assets/:id/staking).  The
inline request struct has `stakedAmount int64` with `binding:"required"`:
an absent JSON field unmarshals to the zero value `0`, and the `required`
validator rejects the zero value, so binding succeeds exactly when the
field is present and non-zero.  `reqStakedAmount` is the JSON field
(`none` = absent). -/
def UpdateAssetStaking (s : Store) (id : String) (reqStakedAmount : Option Int)
    (t : Nat) : Envelope AssetResponse × Store :=
  let v := reqStakedAmount.getD 0
  if v = 0 then (errorResponse 400 "Invalid request data", s)
  else
    match dbFirst s id with
    | none => (errorResponse 404 "Asset not found", s)
    | some a =>
        if a.totalSupply < v then
          (errorResponse 400 "Staked amount cannot exceed total supply", s)
        else
          let a2 := { a with stakedAmount := v, updatedAt := t }
          (successResponse 200 "Staking updated successfully" a2.ToAssetResponse,
           dbSave s a2)

/-- One mutating API call.  `GetAllAssets`, `GetAssetByID`,
`GetAssetStats` and `HealthCheck` never write the store, so the reachable
store states are exactly those generated by these three events. -/
inductive Event where
  | mint (req : MintRequest) (t : Nat)
  | updateContract (id : String) (req : UpdateContractRequest) (t : Nat)
  | updateStaking (id : String) (stakedAmount : Option Int) (t : Nat)
deriving DecidableEq, Repr

/-- The store after one handler call. -/
def step (s : Store) : Event → Store
  | Event.mint req t => (MintAsset s req t).2
  | Event.updateContract id req t => (UpdateContractAddress s id req t).2
  | Event.updateStaking id v t => (UpdateAssetStaking s id v t).2

/-- The store reached from the empty database by a sequence of handler
calls. -/
def run (evs : List Event) : Store :=
  evs.foldl step []

/-- The primary keys of all stored records. -/
def storeIds (s : Store) : List String :=
  s.map Asset.id

/-- The staking invariant of the data model: staked amount between zero
and the total supply on every stored record. -/
def StakeInv (s : Store) : Prop :=
  ∀ a ∈ s, 0 ≤ a.stakedAmount ∧ a.stakedAmount ≤ a.totalSupply

/-- An API call whose numeric input is non-negative: a mint request whose
total-supply field does not parse to a negative value, and a staking
update whose bound amount is non-negative.  The handlers do not check
this themselves. -/
def GoodEvent : Event → Bool
  | Event.mint req _ =>
      match goParseInt64 req.totalSupply with
      | some n => decide (0 ≤ n)
      | none => true
  | Event.updateContract _ _ _ => true
  | Event.updateStaking _ j _ => decide (0 ≤ j.getD 0)

/-- The documents presentation contract of the spec, on one record: one
entry (fixed label, `YYYY-MM-DD` creation date, the URI) when the
documents URI is set, the empty list otherwise. -/
def docsSpec (a : Asset) : Prop :=
  a.documents = some (if a.documentsURI = "" then []
    else [{ name := "Supporting Documents"
            date := formatYMD a.createdAt
            url := a.documentsURI }])

/-- The documents contract lifted to a response view. -/
def docsSpecR (r : AssetResponse) : Prop :=
  docsSpec r.asset

/-- A well-formed mint request used as a concrete test fixture. -/
def reqStd : MintRequest :=
  { name := "Luxury Villa Bali", symbol := "LVB", institutionName := "PropTech",
    institutionAddress := "", description := "", totalSupply := "100",
    expectedYield := "8.5", pricePerRWA := "", contractAddress := "",
    txHash := "", documentsURI := "", imageURI := "" }

/-- A mint request whose string-encoded total supply is negative; it
parses successfully under `strconv.ParseInt`. -/
def reqNegSupply : MintRequest :=
  { reqStd with totalSupply := "-5" }

/-- A mint request carrying a documents URI. -/
def reqDocs : MintRequest :=
  { reqStd with documentsURI := "ipfs://docs" }

/-- The record stored by `run [Event.mint reqStd 7]`, written out. -/
def asset100 : Asset :=
  { id := "asset_7", name := "Luxury Villa Bali", symbol := "LVB",
    type := "Real Estate", institution := "PropTech", institutionAddress := "",
    description := "", totalSupply := 100, stakedAmount := 0, priceUsd := 1,
    annualYield := 17 / 2, createdAt := 7, updatedAt := 7, blockchain := "Lisk",
    contractAddress := "pending", txHash := "", documentsURI := "", imageURI := "" }

/-- Store holding one asset `asset_7` with total supply 100, staked 0. -/
def store100 : Store :=
  run [Event.mint reqStd 7]

/-- Store holding one asset `asset_7` with total supply 100, staked 5. -/
def store100s5 : Store :=
  run [Event.mint reqStd 7, Event.updateStaking "asset_7" (some 5) 8]

/-- The record stored in `store100s5`, written out. -/
def asset100s5 : Asset :=
  { asset100 with stakedAmount := 5, updatedAt := 8 }

/-- A record with a negative staked amount below its total supply: the
staking-update handler can actually store such a record. -/
def a8neg : Asset :=
  { asset100 with stakedAmount := -5, totalSupply := 10 }

/-- A record with staked amount 25 of total supply 100. -/
def asset25 : Asset :=
  { asset100 with stakedAmount := 25 }

end RwaBackend

unseal Rat.mul Rat.add Rat.inv Rat.sub Rat.ofScientific

namespace RwaBackend

theorem goLen_goAppend {α : Type} (s : GoSlice α) (x : α) :
    goLen (goAppend s x) = goLen s + 1 := by
  cases s <;> simp [goAppend, goLen]

theorem foldl_goAppend_some (f : Asset → AssetResponse) (l : List Asset) :
    ∀ acc : List AssetResponse,
      l.foldl (fun acc2 a => goAppend acc2 (f a)) (some acc) = some (acc ++ l.map f) := by
  induction l with
  | nil => simp
  | cons a rest ih =>
      intro acc
      simp only [List.foldl_cons]
      have h : goAppend (some acc) (f a) = some (acc ++ [f a]) := rfl
      rw [h, ih]
      simp

theorem foldl_goAppend_cons (f : Asset → AssetResponse) (a : Asset) (rest : List Asset) :
    (a :: rest).foldl (fun acc2 b => goAppend acc2 (f b)) none = some (f a :: rest.map f) := by
  simp only [List.foldl_cons]
  have h : goAppend none (f a) = some [f a] := rfl
  rw [h, foldl_goAppend_some]
  simp

theorem length_insertByCreatedDesc (a : Asset) (l : List Asset) :
    (insertByCreatedDesc a l).length = l.length + 1 := by
  induction l with
  | nil => rfl
  | cons b bs ih =>
      simp only [insertByCreatedDesc]
      split
      · simp [ih]
      · simp

theorem length_sortByCreatedDesc (l : List Asset) :
    (sortByCreatedDesc l).length = l.length := by
  induction l with
  | nil => rfl
  | cons a rest ih =>
      simp only [sortByCreatedDesc, List.foldr_cons] at *
      rw [length_insertByCreatedDesc, ih]
      rfl

theorem dbFindRaw_map_of_id_eq (f : Asset → Asset) (hf : ∀ b, (f b).id = b.id)
    (s : Store) (i : String) :
    dbFindRaw (s.map f) i = (dbFindRaw s i).map f := by
  induction s with
  | nil => rfl
  | cons b bs ih =>
      cases h : (b.id == i) with
      | true =>
          simp only [dbFindRaw, List.map_cons] at *
          have h1 : List.find? (fun x => x.id == i) (f b :: List.map f bs) = some (f b) :=
            List.find?_cons_of_pos _ (by rw [hf]; exact h)
          have h2 : List.find? (fun x => x.id == i) (b :: bs) = some b :=
            List.find?_cons_of_pos _ h
          rw [h1, h2]
          rfl
      | false =>
          simp only [dbFindRaw, List.map_cons] at *
          have h1 : List.find? (fun x => x.id == i) (f b :: List.map f bs) =
              List.find? (fun x => x.id == i) (List.map f bs) :=
            List.find?_cons_of_neg _ (by rw [hf, h]; exact Bool.false_ne_true)
          have h2 : List.find? (fun x => x.id == i) (b :: bs) =
              List.find? (fun x => x.id == i) bs :=
            List.find?_cons_of_neg _ (by rw [h]; exact Bool.false_ne_true)
          rw [h1, h2]
          exact ih

theorem dbFindRaw_dbSave (s : Store) (a : Asset) (i : String) :
    dbFindRaw (dbSave s a) i =
      (dbFindRaw s i).map fun b => if b.id == a.id then stripComputed a else b := by
  apply dbFindRaw_map_of_id_eq
  intro b
  dsimp only
  split
  · next h => exact (eq_of_beq h).symm
  · rfl

theorem dbFindRaw_mem {s : Store} {i : String} {b : Asset}
    (h : dbFindRaw s i = some b) : b ∈ s ∧ b.id = i := by
  refine ⟨List.mem_of_find?_eq_some h, ?_⟩
  have := List.find?_some h
  exact eq_of_beq this

theorem dbCreate_eq_some {s : Store} {a : Asset} {s2 : Store}
    (h : dbCreate s a = some s2) : s2 = s ++ [stripComputed a] := by
  unfold dbCreate at h
  split at h
  · exact absurd h (by simp)
  · exact (Option.some_inj.mp h).symm

theorem mem_dbSave {s : Store} {a x : Asset} (hx : x ∈ dbSave s a) :
    x ∈ s ∨ x = stripComputed a := by
  unfold dbSave at hx
  rcases List.mem_map.mp hx with ⟨b, hb, hfb⟩
  by_cases h : (b.id == a.id) = true
  · right
    rw [← hfb]
    simp [h]
  · left
    rw [← hfb]
    simp only [h, if_false, Bool.false_eq_true]
    · exact hb

theorem mem_MintAsset_store {s : Store} {req : MintRequest} {t : Nat} {x : Asset}
    (hx : x ∈ (MintAsset s req t).2) :
    x ∈ s ∨ (x.stakedAmount = 0 ∧ goParseInt64 req.totalSupply = some x.totalSupply) := by
  unfold MintAsset at hx
  split at hx
  · exact Or.inl hx
  · split at hx
    · exact Or.inl hx
    · next ts hts =>
        split at hx
        · exact Or.inl hx
        · split at hx
          · exact Or.inl hx
          · split at hx
            · exact Or.inl hx
            · next s2 hcreate =>
                rw [dbCreate_eq_some hcreate] at hx
                rcases List.mem_append.mp hx with h | h
                · exact Or.inl h
                · right
                  have hxe := List.mem_singleton.mp h
                  rw [hxe]
                  exact ⟨rfl, hts⟩

theorem mem_UpdateContractAddress_store {s : Store} {i : String}
    {req : UpdateContractRequest} {t : Nat} {x : Asset}
    (hx : x ∈ (UpdateContractAddress s i req t).2) :
    x ∈ s ∨ ∃ b ∈ s, x.stakedAmount = b.stakedAmount ∧ x.totalSupply = b.totalSupply := by
  unfold UpdateContractAddress at hx
  split at hx
  · exact Or.inl hx
  · split at hx
    · exact Or.inl hx
    · next a ha =>
        dsimp only at hx
        rcases mem_dbSave hx with h | h
        · exact Or.inl h
        · right
          unfold dbFirst at ha
          rcases Option.map_eq_some'.mp ha with ⟨b, hb, hab⟩
          refine ⟨b, (dbFindRaw_mem hb).1, ?_, ?_⟩ <;> rw [h, ← hab] <;> rfl

theorem mem_UpdateAssetStaking_store {s : Store} {i : String}
    {j : Option Int} {t : Nat} {x : Asset}
    (hx : x ∈ (UpdateAssetStaking s i j t).2) :
    x ∈ s ∨ ∃ b ∈ s, x.totalSupply = b.totalSupply ∧
      x.stakedAmount = j.getD 0 ∧ j.getD 0 ≤ b.totalSupply := by
  unfold UpdateAssetStaking at hx
  dsimp only at hx
  split at hx
  · exact Or.inl hx
  · split at hx
    · exact Or.inl hx
    · next a ha =>
        split at hx
        · exact Or.inl hx
        · next hle =>
            rcases mem_dbSave hx with h | h
            · exact Or.inl h
            · right
              unfold dbFirst at ha
              rcases Option.map_eq_some'.mp ha with ⟨b, hb, hab⟩
              refine ⟨b, (dbFindRaw_mem hb).1, ?_, ?_, ?_⟩
              · rw [h, ← hab]; rfl
              · rw [h]; rfl
              · have hba : a.totalSupply = b.totalSupply := by rw [← hab]; rfl
                rw [hba] at hle
                exact le_of_not_lt hle

theorem dbCreate_fresh {s : Store} {a : Asset} {s2 : Store}
    (h : dbCreate s a = some s2) : ∀ b ∈ s, b.id ≠ a.id := by
  intro b hb he
  unfold dbCreate at h
  rw [if_pos] at h
  · cases h
  · exact List.any_eq_true.mpr ⟨b, hb, by rw [he]; exact beq_self_eq_true a.id⟩

theorem stakeInv_step {s : Store} {e : Event}
    (hG : GoodEvent e = true) (hs : StakeInv s) : StakeInv (step s e) := by
  cases e with
  | mint req t =>
      intro a ha
      rcases mem_MintAsset_store ha with h | ⟨h0, hp⟩
      · exact hs a h
      · simp only [GoodEvent] at hG
        rw [hp] at hG
        refine ⟨by rw [h0], ?_⟩
        rw [h0]
        exact of_decide_eq_true hG
  | updateContract i req t =>
      intro a ha
      rcases mem_UpdateContractAddress_store ha with h | ⟨b, hb, h1, h2⟩
      · exact hs a h
      · rw [h1, h2]
        exact hs b hb
  | updateStaking i j t =>
      intro a ha
      rcases mem_UpdateAssetStaking_store ha with h | ⟨b, hb, h1, h2, h3⟩
      · exact hs a h
      · simp only [GoodEvent] at hG
        have h0 : 0 ≤ j.getD 0 := of_decide_eq_true hG
        exact ⟨by rw [h2]; exact h0, by rw [h2, h1]; exact h3⟩

theorem storeIds_dbSave (s : Store) (a : Asset) :
    storeIds (dbSave s a) = storeIds s := by
  unfold storeIds dbSave
  rw [List.map_map]
  apply List.map_congr_left
  intro b _
  dsimp only [Function.comp]
  split
  · next h => exact (eq_of_beq h).symm
  · rfl

theorem storeIds_UpdateContractAddress (s : Store) (i : String)
    (req : UpdateContractRequest) (t : Nat) :
    storeIds (UpdateContractAddress s i req t).2 = storeIds s := by
  unfold UpdateContractAddress
  split
  · rfl
  · split
    · rfl
    · dsimp only
      exact storeIds_dbSave s _

theorem storeIds_UpdateAssetStaking (s : Store) (i : String)
    (j : Option Int) (t : Nat) :
    storeIds (UpdateAssetStaking s i j t).2 = storeIds s := by
  unfold UpdateAssetStaking
  dsimp only
  split
  · rfl
  · split
    · rfl
    · split
      · rfl
      · exact storeIds_dbSave s _

theorem MintAsset_ids (s : Store) (req : MintRequest) (t : Nat) :
    ((MintAsset s req t).1.success = false ∧ (MintAsset s req t).2 = s) ∨
    ((∀ b ∈ s, b.id ≠ mintId t) ∧
      storeIds (MintAsset s req t).2 = storeIds s ++ [mintId t]) := by
  unfold MintAsset
  split
  · exact Or.inl ⟨rfl, rfl⟩
  · split
    · exact Or.inl ⟨rfl, rfl⟩
    · split
      · exact Or.inl ⟨rfl, rfl⟩
      · split
        · exact Or.inl ⟨rfl, rfl⟩
        · split
          · exact Or.inl ⟨rfl, rfl⟩
          · next s2 hcreate =>
              right
              refine ⟨fun b hb he => dbCreate_fresh hcreate b hb he, ?_⟩
              rw [dbCreate_eq_some hcreate]
              unfold storeIds
              rw [List.map_append]
              rfl

theorem MintAsset_success_ids {s : Store} {req : MintRequest} {t : Nat}
    (h : (MintAsset s req t).1.success = true) :
    (∀ b ∈ s, b.id ≠ mintId t) ∧
      storeIds (MintAsset s req t).2 = storeIds s ++ [mintId t] := by
  rcases MintAsset_ids s req t with ⟨hf, _⟩ | hr
  · rw [h] at hf
    cases hf
  · exact hr

theorem nodup_step {s : Store} (e : Event)
    (h : (storeIds s).Nodup) : (storeIds (step s e)).Nodup := by
  cases e with
  | mint req t =>
      rcases MintAsset_ids s req t with ⟨_, h2⟩ | ⟨hfresh, h2⟩
      · show (storeIds (MintAsset s req t).2).Nodup
        rw [h2]
        exact h
      · show (storeIds (MintAsset s req t).2).Nodup
        rw [h2]
        refine List.nodup_append.mpr ⟨h, List.nodup_singleton _, ?_⟩
        intro x hx hx2
        rcases List.mem_map.mp hx with ⟨b, hb, hbid⟩
        rw [List.mem_singleton.mp hx2] at hbid
        exact hfresh b hb hbid
  | updateContract i req t =>
      show (storeIds (UpdateContractAddress s i req t).2).Nodup
      rw [storeIds_UpdateContractAddress]
      exact h
  | updateStaking i j t =>
      show (storeIds (UpdateAssetStaking s i j t).2).Nodup
      rw [storeIds_UpdateAssetStaking]
      exact h

/-- C1, counterexample: the claim as stated is false.  Minting with the
string-encoded total supply "-5" succeeds (`strconv.ParseInt` accepts a
leading minus sign and no handler checks the sign), producing a reachable
store whose record has total supply -5 and staked amount 0, violating
0 ≤ stakedAmount ≤ totalSupply. -/
theorem mint_negative_supply_breaks_invariant :
    ¬ StakeInv (run [Event.mint reqNegSupply 0]) := by
  unfold StakeInv
  decide

/-- C1, amended: provided every mint request carries a total-supply string
that does not parse to a negative value and every staking update carries a
non-negative amount (conditions the handlers do not check), every record
in every reachable store satisfies 0 ≤ stakedAmount ≤ totalSupply: mint
creates records with staked amount 0, update-staking enforces the supply
ceiling, and update-contract leaves both fields unchanged. -/
theorem staking_invariant_of_nonneg_inputs (evs : List Event)
    (h : ∀ e ∈ evs, GoodEvent e = true) : StakeInv (run evs) := by
  suffices haux : ∀ (l : List Event) (s : Store),
      (∀ e ∈ l, GoodEvent e = true) → StakeInv s → StakeInv (l.foldl step s) by
    exact haux evs [] h (fun a ha => absurd ha (List.not_mem_nil a))
  intro l
  induction l with
  | nil => intro s _ hs; exact hs
  | cons e rest ih =>
      intro s hl hs
      exact ih (step s e)
        (fun x hx => hl x (List.mem_cons_of_mem e hx))
        (stakeInv_step (hl e (List.mem_cons_self e rest)) hs)

/-- Witness for the amended C1 theorem at a concrete event sequence. -/
theorem staking_invariant_witness :
    (∀ e ∈ [Event.mint reqStd 1, Event.updateStaking "asset_1" (some 40) 2],
      GoodEvent e = true) ∧
    StakeInv (run [Event.mint reqStd 1, Event.updateStaking "asset_1" (some 40) 2]) :=
  ⟨by decide, staking_invariant_of_nonneg_inputs _ (by decide)⟩

/-- C2: in every reachable store no two records share an identifier (the
primary-key UNIQUE constraint makes a colliding `Create` fail with a 500
instead of inserting), and two mint calls that both succeed always yield
distinct identifiers: the first mint's identifier is in the store, and the
second can only succeed if its identifier is absent. -/
theorem store_ids_nodup_and_distinct_mints (evs : List Event) :
    (storeIds (run evs)).Nodup ∧
    ∀ req t req2 t2,
      (MintAsset (run evs) req t).1.success = true →
      (MintAsset (MintAsset (run evs) req t).2 req2 t2).1.success = true →
      mintId t ≠ mintId t2 := by
  constructor
  · suffices haux : ∀ (l : List Event) (s : Store),
        (storeIds s).Nodup → (storeIds (l.foldl step s)).Nodup by
      exact haux evs [] List.nodup_nil
    intro l
    induction l with
    | nil => intro s hs; exact hs
    | cons e rest ih =>
        intro s hs
        exact ih (step s e) (nodup_step e hs)
  · intro req t req2 t2 h1 h2
    rcases MintAsset_success_ids h1 with ⟨_, hids⟩
    rcases MintAsset_success_ids h2 with ⟨hfresh2, _⟩
    have hmem : mintId t ∈ storeIds (MintAsset (run evs) req t).2 := by
      rw [hids]
      exact List.mem_append_right _ (List.mem_singleton_self _)
    rcases List.mem_map.mp hmem with ⟨b, hb, hbid⟩
    intro he
    exact hfresh2 b hb (by rw [hbid, he])

/-- Witness for C2: two successful mints from the empty store, at seconds
1 and 2, give distinct identifiers. -/
theorem store_ids_nodup_witness : mintId 1 ≠ mintId 2 :=
  (store_ids_nodup_and_distinct_mints []).2 reqStd 1 reqStd 2 (by decide) (by decide)

theorem foldl_goAppend_length (f : Asset → AssetResponse) (l : List Asset) :
    goLen (l.foldl (fun acc a => goAppend acc (f a)) none) = l.length ∧
    (l = [] → l.foldl (fun acc a => goAppend acc (f a)) none = none) ∧
    (∀ r, l.foldl (fun acc a => goAppend acc (f a)) none = some r → r.length = l.length) := by
  cases l with
  | nil => exact ⟨rfl, fun _ => rfl, fun r h => nomatch h⟩
  | cons a rest =>
      rw [foldl_goAppend_cons]
      refine ⟨by simp [goLen], ?_, ?_⟩
      · intro h
        exact nomatch h
      · intro r h
        rw [← Option.some_inj.mp h]
        simp

/-- C3, counterexample: on the empty store the List handler's payload has
total 0, but its `assets` field is the Go `nil` slice, which
`encoding/json` marshals as JSON `null`, not as the empty array `[]` the
claim states. -/
theorem list_empty_store_assets_null :
    ((GetAllAssets []).data.map fun p => encodeSlice p.assets) = some GoJson.null ∧
    ((GetAllAssets []).data.map fun p => encodeSlice p.assets) ≠ some (GoJson.arr []) := by
  constructor
  · decide
  · decide

/-- C3, amended: the List handler always reports success true and a total
equal to the number of stored records (`len` of a nil slice being 0); on
the empty store the `assets` field marshals to JSON null — the Go nil
slice — rather than to the empty array; on any store, whenever the
`assets` field marshals to a JSON array, that array's length equals the
returned total, i.e. the number of stored records. -/
theorem list_success_total_and_encoding (s : Store) :
    (GetAllAssets s).success = true ∧
    ((GetAllAssets s).data.map ListPayload.total) = some s.length ∧
    (s = [] → ((GetAllAssets s).data.map fun p => encodeSlice p.assets) = some GoJson.null) ∧
    (∀ l, ((GetAllAssets s).data.map fun p => encodeSlice p.assets) = some (GoJson.arr l) →
      l.length = s.length) := by
  obtain ⟨hlen, hnil, harr⟩ :=
    foldl_goAppend_length Asset.ToAssetResponse ((sortByCreatedDesc s).map Asset.AfterFind)
  have hGA : GetAllAssets s = successResponse 200 "Assets fetched successfully"
      { assets := ((sortByCreatedDesc s).map Asset.AfterFind).foldl
          (fun acc a => goAppend acc a.ToAssetResponse) none
        total := goLen (((sortByCreatedDesc s).map Asset.AfterFind).foldl
          (fun acc a => goAppend acc a.ToAssetResponse) none) } := rfl
  rw [hGA]
  refine ⟨rfl, ?_, ?_, ?_⟩
  · simp only [successResponse, Option.map_some']
    rw [Option.some_inj]
    show goLen _ = s.length
    rw [hlen, List.length_map, length_sortByCreatedDesc]
  · intro hs
    subst hs
    decide
  · intro l hl
    simp only [successResponse, Option.map_some', Option.some_inj] at hl
    rcases hR : ((sortByCreatedDesc s).map Asset.AfterFind).foldl
        (fun acc a => goAppend acc a.ToAssetResponse) none with _ | r
    · rw [hR] at hl
      exact absurd hl (by simp [encodeSlice])
    · rw [hR] at hl
      have hrl : r = l := by simpa [encodeSlice] using hl
      rw [← hrl, harr r hR, List.length_map, length_sortByCreatedDesc]

/-- Witness for the amended C3 theorem: the empty-store implication at
`s = []` and the array-length implication at the one-record store. -/
theorem list_total_witness :
    ((GetAllAssets []).data.map fun p => encodeSlice p.assets) = some GoJson.null ∧
    [(Asset.AfterFind asset100).ToAssetResponse].length = store100.length :=
  ⟨(list_success_total_and_encoding []).2.2.1 rfl,
   (list_success_total_and_encoding store100).2.2.2 _ (by decide)⟩

theorem UpdateAssetStaking_zero (s : Store) (i : String) (t : Nat) (j : Option Int)
    (h : j.getD 0 = 0) :
    UpdateAssetStaking s i j t = (errorResponse 400 "Invalid request data", s) := by
  unfold UpdateAssetStaking
  dsimp only
  rw [if_pos h]

theorem UpdateAssetStaking_reject {s : Store} {i : String} {j : Option Int} {t : Nat}
    {a : Asset} (ha : dbFirst s i = some a) (hv : j.getD 0 ≠ 0)
    (hgt : a.totalSupply < j.getD 0) :
    UpdateAssetStaking s i j t =
      (errorResponse 400 "Staked amount cannot exceed total supply", s) := by
  unfold UpdateAssetStaking
  dsimp only
  rw [if_neg hv, ha]
  dsimp only
  rw [if_pos hgt]

theorem UpdateAssetStaking_accept {s : Store} {i : String} {j : Option Int} {t : Nat}
    {a : Asset} (ha : dbFirst s i = some a) (hv : j.getD 0 ≠ 0)
    (hle : ¬ a.totalSupply < j.getD 0) :
    UpdateAssetStaking s i j t =
      (successResponse 200 "Staking updated successfully"
        ({ a with stakedAmount := j.getD 0, updatedAt := t }).ToAssetResponse,
       dbSave s { a with stakedAmount := j.getD 0, updatedAt := t }) := by
  unfold UpdateAssetStaking
  dsimp only
  rw [if_neg hv, ha]
  dsimp only
  rw [if_neg hle]

theorem dbFindRaw_after_save_self {s : Store} {i : String} {a : Asset}
    (ha : dbFirst s i = some a) (a2 : Asset) (hid : a2.id = a.id) :
    dbFindRaw (dbSave s a2) i = some (stripComputed a2) := by
  unfold dbFirst at ha
  rcases Option.map_eq_some'.mp ha with ⟨b, hb, hab⟩
  rw [dbFindRaw_dbSave, hb, Option.map_some']
  have hba : b.id = a2.id := by rw [hid, ← hab]; rfl
  rw [if_pos (by rw [hba]; exact beq_self_eq_true a2.id)]

/-- C4, counterexample: the claim as stated is false.  On a record with
total supply 100, the staking request with the negative amount -5 passes
the `required` binding (it is non-zero), passes the only validation
(`-5 > 100` is false), and is stored: the handler succeeds and the record
now holds staked amount -5.  No ValidationError is produced. -/
theorem negative_staking_accepted :
    (UpdateAssetStaking store100 "asset_7" (some (-5)) 9).1.success = true ∧
    ((UpdateAssetStaking store100 "asset_7" (some (-5)) 9).2.map Asset.stakedAmount)
      = [-5] := by
  exact ⟨by decide, by decide⟩

/-- C4, amended: a negative staked-amount request on an existing record is
rejected with a ValidationError only when it exceeds the record's total
supply (leaving the store unchanged); any negative amount not exceeding
the total supply is accepted and stored as the record's staked amount —
the handler never validates non-negativity. -/
theorem staking_negative_amount_behaviour (s : Store) (i : String) (v : Int) (t : Nat)
    (a : Asset) (hneg : v < 0) (ha : dbFirst s i = some a) :
    (a.totalSupply < v →
      UpdateAssetStaking s i (some v) t =
        (errorResponse 400 "Staked amount cannot exceed total supply", s)) ∧
    (¬ a.totalSupply < v →
      (UpdateAssetStaking s i (some v) t).1.success = true ∧
      dbFindRaw (UpdateAssetStaking s i (some v) t).2 i =
        some (stripComputed { a with stakedAmount := v, updatedAt := t })) := by
  have hv : (some v : Option Int).getD 0 ≠ 0 := by
    simp only [Option.getD_some]
    omega
  constructor
  · intro hgt
    exact UpdateAssetStaking_reject ha hv hgt
  · intro hle
    rw [UpdateAssetStaking_accept ha hv hle]
    exact ⟨rfl, dbFindRaw_after_save_self ha
      { a with stakedAmount := (some v : Option Int).getD 0, updatedAt := t } rfl⟩

/-- Witness for the amended C4 theorem: staking -5 on the 100-supply
record succeeds. -/
theorem staking_negative_witness :
    (UpdateAssetStaking store100 "asset_7" (some (-5)) 9).1.success = true :=
  ((staking_negative_amount_behaviour store100 "asset_7" (-5) 9
    (Asset.AfterFind asset100) (by decide) (by decide)).2 (by decide)).1

/-- C6, counterexample: the claim as stated is false for the requested
amount 0.  On the record with total supply 100 and staked amount 5, the
request 0 does not exceed the total supply, so the claim requires the
staked amount to be set to 0 and the timestamp refreshed; the handler
instead fails at binding (`required` treats 0 as missing) and leaves the
store — including staked amount 5 — unchanged. -/
theorem staking_zero_request_not_applied :
    (dbFindRaw store100s5 "asset_7").map Asset.totalSupply = some 100 ∧
    (dbFindRaw store100s5 "asset_7").map Asset.stakedAmount = some 5 ∧
    (UpdateAssetStaking store100s5 "asset_7" (some 0) 9).1.success = false ∧
    (UpdateAssetStaking store100s5 "asset_7" (some 0) 9).2 = store100s5 := by
  exact ⟨by decide, by decide, by decide, by decide⟩

/-- C6, amended: on an existing record, a requested amount exceeding the
total supply fails with a ValidationError and leaves the store entirely
unchanged (update timestamp included); a non-zero requested amount not
exceeding the total supply is stored with the update timestamp refreshed;
the requested amount 0 is rejected at binding with the store unchanged. -/
theorem update_staking_behaviour (s : Store) (i : String) (v : Int) (t : Nat)
    (a : Asset) (ha : dbFirst s i = some a) :
    (v = 0 →
      UpdateAssetStaking s i (some v) t = (errorResponse 400 "Invalid request data", s)) ∧
    (v ≠ 0 → a.totalSupply < v →
      UpdateAssetStaking s i (some v) t =
        (errorResponse 400 "Staked amount cannot exceed total supply", s)) ∧
    (v ≠ 0 → ¬ a.totalSupply < v →
      (UpdateAssetStaking s i (some v) t).1.success = true ∧
      dbFindRaw (UpdateAssetStaking s i (some v) t).2 i =
        some (stripComputed { a with stakedAmount := v, updatedAt := t })) := by
  refine ⟨?_, ?_, ?_⟩
  · intro h0
    exact UpdateAssetStaking_zero s i t (some v) (by simpa using h0)
  · intro hv hgt
    have hv2 : (some v : Option Int).getD 0 ≠ 0 := by simpa using hv
    exact UpdateAssetStaking_reject ha hv2 hgt
  · intro hv hle
    have hv2 : (some v : Option Int).getD 0 ≠ 0 := by simpa using hv
    have hle2 : ¬ a.totalSupply < (some v : Option Int).getD 0 := by simpa using hle
    rw [UpdateAssetStaking_accept ha hv2 hle2]
    exact ⟨rfl, dbFindRaw_after_save_self ha
      { a with stakedAmount := (some v : Option Int).getD 0, updatedAt := t } rfl⟩

/-- Witness for the amended C6 theorem: staking 40 on the 100-supply
record stores staked amount 40 with the timestamp refreshed to 9. -/
theorem update_staking_witness :
    (UpdateAssetStaking store100 "asset_7" (some 40) 9).1.success = true ∧
    dbFindRaw (UpdateAssetStaking store100 "asset_7" (some 40) 9).2 "asset_7" =
      some (stripComputed { Asset.AfterFind asset100 with stakedAmount := 40, updatedAt := 9 }) :=
  (update_staking_behaviour store100 "asset_7" 40 9
    (Asset.AfterFind asset100) (by decide)).2.2 (by decide) (by decide)

/-- C10: a staking request whose `stakedAmount` field is absent or 0 fails
the `required` binding and is rejected with 400 "Invalid request data"
without touching the store; consequently a record's staked amount can
never be set to 0 through this endpoint — any store reached by a staking
call keeps a non-zero staked amount on a record that had one. -/
theorem staking_required_binding (s : Store) (i : String) (j : Option Int) (t : Nat) :
    (j.getD 0 = 0 →
      UpdateAssetStaking s i j t = (errorResponse 400 "Invalid request data", s)) ∧
    (∀ b, dbFindRaw s i = some b → b.stakedAmount ≠ 0 →
      ∀ r, dbFindRaw (UpdateAssetStaking s i j t).2 i = some r → r.stakedAmount ≠ 0) := by
  constructor
  · intro h
    exact UpdateAssetStaking_zero s i t j h
  · intro b hb hb0 r hr
    by_cases h0 : j.getD 0 = 0
    · rw [UpdateAssetStaking_zero s i t j h0] at hr
      rw [hb] at hr
      rw [← Option.some_inj.mp hr]
      exact hb0
    · cases hfa : dbFirst s i with
      | none =>
          unfold dbFirst at hfa
          rw [hb, Option.map_some'] at hfa
          cases hfa
      | some a =>
          by_cases hgt : a.totalSupply < j.getD 0
          · rw [UpdateAssetStaking_reject hfa h0 hgt] at hr
            rw [hb] at hr
            rw [← Option.some_inj.mp hr]
            exact hb0
          · rw [UpdateAssetStaking_accept hfa h0 hgt] at hr
            dsimp only at hr
            rw [dbFindRaw_after_save_self hfa
              { a with stakedAmount := j.getD 0, updatedAt := t } rfl] at hr
            rw [← Option.some_inj.mp hr]
            exact h0

/-- Witness for C10: the absent-field request is rejected with the store
unchanged, and staking 7 on the record holding staked amount 5 yields a
record whose staked amount is again non-zero. -/
theorem staking_required_binding_witness :
    UpdateAssetStaking store100s5 "asset_7" none 9 =
      (errorResponse 400 "Invalid request data", store100s5) ∧
    (stripComputed { Asset.AfterFind asset100s5 with stakedAmount := 7, updatedAt := 9 }).stakedAmount ≠ 0 :=
  ⟨(staking_required_binding store100s5 "asset_7" none 9).1 rfl,
   (staking_required_binding store100s5 "asset_7" (some 7) 9).2 asset100s5
     (by decide) (by decide) _ (by decide)⟩

theorem UpdateContractAddress_accept {s : Store} {i : String}
    {req : UpdateContractRequest} {t : Nat} {a : Asset}
    (hreq : ¬ req.contractAddress = "") (ha : dbFirst s i = some a) :
    UpdateContractAddress s i req t =
      (successResponse 200 "Contract address updated successfully"
        ({ a with contractAddress := req.contractAddress
                  txHash := if req.txHash ≠ "" then req.txHash else a.txHash
                  updatedAt := t }).ToAssetResponse,
       dbSave s { a with contractAddress := req.contractAddress
                         txHash := if req.txHash ≠ "" then req.txHash else a.txHash
                         updatedAt := t }) := by
  unfold UpdateContractAddress
  rw [if_neg hreq, ha]

/-- C7: on an existing record, an update-contract call that passes binding
(the required contract address is non-empty) succeeds; the stored record
afterwards has the supplied contract address, the supplied transaction
hash when that is non-empty and the prior hash otherwise, the update
timestamp set to the call time, and every other stored column unchanged. -/
theorem update_contract_frame (s : Store) (i : String) (req : UpdateContractRequest)
    (t : Nat) (b : Asset) (hreq : req.contractAddress ≠ "")
    (hb : dbFindRaw s i = some b) :
    (UpdateContractAddress s i req t).1.success = true ∧
    ∃ r, dbFindRaw (UpdateContractAddress s i req t).2 i = some r ∧
      r.contractAddress = req.contractAddress ∧
      r.txHash = (if req.txHash = "" then b.txHash else req.txHash) ∧
      r.updatedAt = t ∧
      r.id = b.id ∧ r.name = b.name ∧ r.symbol = b.symbol ∧ r.type = b.type ∧
      r.institution = b.institution ∧ r.institutionAddress = b.institutionAddress ∧
      r.description = b.description ∧ r.totalSupply = b.totalSupply ∧
      r.stakedAmount = b.stakedAmount ∧ r.priceUsd = b.priceUsd ∧
      r.annualYield = b.annualYield ∧ r.createdAt = b.createdAt ∧
      r.blockchain = b.blockchain ∧ r.documentsURI = b.documentsURI ∧
      r.imageURI = b.imageURI := by
  have ha : dbFirst s i = some (Asset.AfterFind b) := by
    unfold dbFirst
    rw [hb, Option.map_some']
  rw [UpdateContractAddress_accept hreq ha]
  refine ⟨rfl, ?_⟩
  refine ⟨_, dbFindRaw_after_save_self ha
    { Asset.AfterFind b with contractAddress := req.contractAddress
                             txHash := if req.txHash ≠ "" then req.txHash else (Asset.AfterFind b).txHash
                             updatedAt := t } rfl, rfl, ?_,
    rfl, rfl, rfl, rfl, rfl, rfl, rfl, rfl, rfl, rfl, rfl, rfl, rfl, rfl, rfl, rfl⟩
  by_cases h : req.txHash = ""
  · show (if req.txHash ≠ "" then req.txHash else (Asset.AfterFind b).txHash) = _
    rw [if_neg (by simpa using h), if_pos h]
    rfl
  · show (if req.txHash ≠ "" then req.txHash else (Asset.AfterFind b).txHash) = _
    rw [if_pos h, if_neg h]

/-- Witness for C7: updating the contract address of the one stored
record to "0xABC" with no transaction hash succeeds. -/
theorem update_contract_frame_witness :
    (UpdateContractAddress store100 "asset_7" { contractAddress := "0xABC", txHash := "" } 9).1.success = true :=
  (update_contract_frame store100 "asset_7" { contractAddress := "0xABC", txHash := "" } 9
    asset100 (by decide) (by decide)).1

theorem MintAsset_cases (s : Store) (req : MintRequest) (t : Nat) :
    ((MintAsset s req t).1.success = false ∧ (MintAsset s req t).1.data = none ∧
      (MintAsset s req t).2 = s) ∨
    (∃ ts ey price,
      goParseInt64 req.totalSupply = some ts ∧
      goParseFloat req.expectedYield = some ey ∧
      (if req.pricePerRWA = "" then some 1 else goParseFloat req.pricePerRWA) = some price ∧
      MintAsset s req t =
        (successResponse 201 "Asset minted successfully"
          { id := (mintedAsset req t ts ey price).id
            asset := (mintedAsset req t ts ey price).ToAssetResponse },
         s ++ [stripComputed (mintedAsset req t ts ey price)])) := by
  unfold MintAsset
  split
  · exact Or.inl ⟨rfl, rfl, rfl⟩
  · split
    · exact Or.inl ⟨rfl, rfl, rfl⟩
    · next ts hts =>
        split
        · exact Or.inl ⟨rfl, rfl, rfl⟩
        · next ey hey =>
            split
            · exact Or.inl ⟨rfl, rfl, rfl⟩
            · next price hprice =>
                split
                · exact Or.inl ⟨rfl, rfl, rfl⟩
                · next s2 hcreate =>
                    right
                    refine ⟨ts, ey, price, hts, hey, hprice, ?_⟩
                    rw [dbCreate_eq_some hcreate]

/-- C9: a mint request that omits the price-per-unit field (empty string,
which is also how an absent JSON field unmarshals) and omits the contract
address yields, when the handler succeeds, a record with price 1.0,
contract address "pending" and staked amount 0, and a derived view with
isContractActive = false. -/
theorem mint_defaults (s : Store) (req : MintRequest) (t : Nat)
    (hprice : req.pricePerRWA = "") (haddr : req.contractAddress = "")
    (h : (MintAsset s req t).1.success = true) :
    ((MintAsset s req t).1.data.map fun p => p.asset.asset.priceUsd) = some 1 ∧
    ((MintAsset s req t).1.data.map fun p => p.asset.asset.contractAddress) = some "pending" ∧
    ((MintAsset s req t).1.data.map fun p => p.asset.asset.stakedAmount) = some 0 ∧
    ((MintAsset s req t).1.data.map fun p => p.asset.isContractActive) = some false := by
  rcases MintAsset_cases s req t with ⟨hf, _, _⟩ | ⟨ts, ey, price, hts, hey, hpr, heq⟩
  · rw [h] at hf
    cases hf
  · rw [hprice, if_pos rfl] at hpr
    have hp1 : (1 : ℚ) = price := Option.some_inj.mp hpr
    have hca : (mintedAsset req t ts ey price).contractAddress = "pending" := by
      show (if req.contractAddress = "" then "pending" else req.contractAddress) = "pending"
      rw [if_pos haddr]
    have hact : ((mintedAsset req t ts ey price).ToAssetResponse).isContractActive = false := by
      show ((mintedAsset req t ts ey price).contractAddress ≠ "" &&
        (mintedAsset req t ts ey price).contractAddress ≠ "pending") = false
      rw [hca]
      decide
    rw [heq]
    refine ⟨?_, ?_, ?_, ?_⟩
    · show some price = some 1
      rw [← hp1]
    · show some (mintedAsset req t ts ey price).contractAddress = some "pending"
      rw [hca]
    · rfl
    · show some ((mintedAsset req t ts ey price).ToAssetResponse).isContractActive = some false
      rw [hact]

/-- Witness for C9: the standard fixture request omits both fields, and
minting it on the empty store produces the default price and the inactive
contract flag. -/
theorem mint_defaults_witness :
    ((MintAsset [] reqStd 7).1.data.map fun p => p.asset.asset.priceUsd) = some 1 ∧
    ((MintAsset [] reqStd 7).1.data.map fun p => p.asset.isContractActive) = some false :=
  ⟨(mint_defaults [] reqStd 7 rfl rfl (by decide)).1,
   (mint_defaults [] reqStd 7 rfl rfl (by decide)).2.2.2⟩

theorem docsSpec_AfterFind (a : Asset) : docsSpec (Asset.AfterFind a) := by
  by_cases h : a.documentsURI = "" <;>
    simp [docsSpec, Asset.AfterFind, h]

theorem docsSpec_frame {a a2 : Asset} (hd : a2.documents = a.documents)
    (hu : a2.documentsURI = a.documentsURI) (hc : a2.createdAt = a.createdAt)
    (h : docsSpec a) : docsSpec a2 := by
  unfold docsSpec at *
  rw [hd, hu, hc]
  exact h

theorem mem_foldl_goAppend (f : Asset → AssetResponse) (l : List Asset)
    (r : AssetResponse)
    (hr : r ∈ (l.foldl (fun acc a => goAppend acc (f a)) none).getD []) :
    ∃ x ∈ l, r = f x := by
  cases l with
  | nil => exact absurd hr (List.not_mem_nil r)
  | cons a rest =>
      rw [foldl_goAppend_cons] at hr
      rcases List.mem_cons.mp hr with h | h
      · exact ⟨a, List.mem_cons_self a rest, h⟩
      · rcases List.mem_map.mp h with ⟨x, hx, hfx⟩
        exact ⟨x, List.mem_cons_of_mem a hx, hfx.symm⟩

/-- C5, counterexample: the claim as stated is false for the mint handler.
Minting a request whose documents URI is non-empty returns a view whose
documents list is the Go nil slice — zero entries, marshalled as JSON
null — because the `AfterFind` hook only runs on records loaded from the
store, and the mint path never loads. -/
theorem mint_response_documents_nil :
    reqDocs.documentsURI ≠ "" ∧
    ((MintAsset [] reqDocs 3).1.data.map fun p => p.asset.asset.documents) = some none := by
  exact ⟨by decide, by decide⟩

/-- C5, amended: for the handlers that load records from the store
(get-by-id, list, update-contract, update-staking) every emitted view has
exactly one document entry — fixed label, `YYYY-MM-DD` creation date,
the URI — when the record's documents URI is non-empty and the empty list
otherwise; the mint handler's view instead always carries the nil
documents slice, whatever the URI, because the hook only runs on load. -/
theorem documents_presentation (s : Store) (i : String)
    (creq : UpdateContractRequest) (j : Option Int) (t : Nat) :
    (∀ r, (GetAssetByID s i).data = some r → docsSpecR r) ∧
    (∀ p, (GetAllAssets s).data = some p → ∀ r ∈ p.assets.getD [], docsSpecR r) ∧
    (∀ r, (UpdateContractAddress s i creq t).1.data = some r → docsSpecR r) ∧
    (∀ r, (UpdateAssetStaking s i j t).1.data = some r → docsSpecR r) ∧
    (∀ req p, (MintAsset s req t).1.data = some p → p.asset.asset.documents = none) := by
  refine ⟨?_, ?_, ?_, ?_, ?_⟩
  · intro r hr
    unfold GetAssetByID at hr
    cases hg : dbFirst s i with
    | none =>
        rw [hg] at hr
        simp [errorResponse] at hr
    | some a =>
        rw [hg] at hr
        simp only [successResponse, Option.some_inj] at hr
        rcases Option.map_eq_some'.mp hg with ⟨b, _, hab⟩
        rw [← hr]
        show docsSpec a
        rw [← hab]
        exact docsSpec_AfterFind b
  · intro p hp r hr
    unfold GetAllAssets at hp
    simp only [successResponse, Option.some_inj] at hp
    rw [← hp] at hr
    rcases mem_foldl_goAppend Asset.ToAssetResponse _ r hr with ⟨x, hx, hfx⟩
    rcases List.mem_map.mp hx with ⟨y, _, hy⟩
    rw [hfx]
    show docsSpec x
    rw [← hy]
    exact docsSpec_AfterFind y
  · intro r hr
    unfold UpdateContractAddress at hr
    split at hr
    · simp [errorResponse] at hr
    · split at hr
      · simp [errorResponse] at hr
      · next a ha =>
          dsimp only at hr
          simp only [successResponse, Option.some_inj] at hr
          rcases Option.map_eq_some'.mp ha with ⟨b, _, hab⟩
          rw [← hr]
          show docsSpec _
          refine docsSpec_frame ?_ ?_ ?_ (docsSpec_AfterFind b) <;> rw [← hab] <;> rfl
  · intro r hr
    unfold UpdateAssetStaking at hr
    dsimp only at hr
    split at hr
    · simp [errorResponse] at hr
    · split at hr
      · simp [errorResponse] at hr
      · next a ha =>
          split at hr
          · simp [errorResponse] at hr
          · dsimp only at hr
            simp only [successResponse, Option.some_inj] at hr
            rcases Option.map_eq_some'.mp ha with ⟨b, _, hab⟩
            rw [← hr]
            show docsSpec _
            refine docsSpec_frame ?_ ?_ ?_ (docsSpec_AfterFind b) <;> rw [← hab] <;> rfl
  · intro req p hp
    rcases MintAsset_cases s req t with ⟨_, hd, _⟩ | ⟨ts, ey, price, _, _, _, heq⟩
    · rw [hd] at hp
      cases hp
    · rw [heq] at hp
      simp only [successResponse, Option.some_inj] at hp
      rw [← hp]
      rfl

/-- Witness for the amended C5 theorem: the get-by-id view of the stored
record satisfies the documents contract. -/
theorem documents_presentation_witness :
    docsSpecR ((Asset.AfterFind asset100).ToAssetResponse) :=
  (documents_presentation store100 "asset_7"
    { contractAddress := "0xA", txHash := "" } none 0).1 _ (by decide)

/-- C8, counterexample: the claim as stated is false without a lower
bound on the staked amount.  The record with staked amount -5 and total
supply 10 satisfies stakedAmount ≤ totalSupply and has positive supply,
yet its derived stakingProgress is -50, outside [0, 100] — and such
records are reachable, since the staking endpoint accepts negative
amounts. -/
theorem staking_progress_negative_input :
    a8neg.stakedAmount ≤ a8neg.totalSupply ∧
    (0 : Int) < a8neg.totalSupply ∧
    a8neg.ToAssetResponse.stakingProgress = -50 ∧
    ¬ (0 ≤ a8neg.ToAssetResponse.stakingProgress) := by
  exact ⟨by decide, by decide, by decide, by decide⟩

/-- C8, amended: for every record with 0 ≤ stakedAmount ≤ totalSupply,
the derived stakingProgress equals stakedAmount / totalSupply * 100 and
lies in [0, 100] whenever totalSupply > 0, and is exactly 0 when
totalSupply = 0 (no division by zero occurs). -/
theorem staking_progress_bounds (a : Asset) (h0 : 0 ≤ a.stakedAmount)
    (h1 : a.stakedAmount ≤ a.totalSupply) :
    (0 < a.totalSupply →
      a.ToAssetResponse.stakingProgress =
        (a.stakedAmount : ℚ) / (a.totalSupply : ℚ) * 100 ∧
      0 ≤ a.ToAssetResponse.stakingProgress ∧
      a.ToAssetResponse.stakingProgress ≤ 100) ∧
    (a.totalSupply = 0 → a.ToAssetResponse.stakingProgress = 0) := by
  have hsp : a.ToAssetResponse.stakingProgress =
      if 0 < a.totalSupply then (a.stakedAmount : ℚ) / (a.totalSupply : ℚ) * 100
      else 0 := rfl
  constructor
  · intro hpos
    have hs : (0 : ℚ) ≤ (a.stakedAmount : ℚ) := by exact_mod_cast h0
    have ht : (0 : ℚ) < (a.totalSupply : ℚ) := by exact_mod_cast hpos
    have hst : (a.stakedAmount : ℚ) ≤ (a.totalSupply : ℚ) := by exact_mod_cast h1
    rw [hsp, if_pos hpos]
    refine ⟨rfl, ?_, ?_⟩
    · exact mul_nonneg (div_nonneg hs (le_of_lt ht)) (by norm_num)
    · have hdiv : (a.stakedAmount : ℚ) / (a.totalSupply : ℚ) ≤ 1 :=
        (div_le_one ht).mpr hst
      calc (a.stakedAmount : ℚ) / (a.totalSupply : ℚ) * 100
          ≤ 1 * 100 := mul_le_mul_of_nonneg_right hdiv (by norm_num)
        _ = 100 := by norm_num
  · intro hz
    rw [hsp, if_neg (by rw [hz]; exact lt_irrefl 0)]

/-- Witness for the amended C8 theorem at the record with staked amount
25 of total supply 100. -/
theorem staking_progress_witness :
    asset25.ToAssetResponse.stakingProgress =
      (asset25.stakedAmount : ℚ) / (asset25.totalSupply : ℚ) * 100 ∧
    0 ≤ asset25.ToAssetResponse.stakingProgress ∧
    asset25.ToAssetResponse.stakingProgress ≤ 100 :=
  (staking_progress_bounds asset25 (by decide) (by decide)).1 (by decide)

end RwaBackend
